import Mathlib

/-!
Verification of the prismm-bench evaluation-framework orchestrator.

Strings from the Python source are embedded as lists of characters
(`Str := List Char`); Python `str.split`, `str.join`, `str.replace`,
`str.strip` and `str.upper` are embedded as executable functions on
`List Char` below.  Machine floats that the source only adds and
compares (the megabyte size estimates) are embedded as exact rationals;
the greedy chunker accumulates its running total with the same
operations and in the same order as the source, so the comparison
structure is preserved.
-/

/-- Python strings are modelled as lists of characters. -/
abbrev Str := List Char

/-- Convert a Lean string literal to the character-list model. -/
def str (s : String) : Str := s.data

/-- Python `s.split("_")`: split a string on the underscore character.
`splitUS ""` is `[""]`, matching Python's behaviour. -/
def splitUS : Str → List Str
  | [] => [[]]
  | c :: cs =>
    let rest := splitUS cs
    if c = '_' then [] :: rest
    else
      match rest with
      | [] => [[c]]
      | f :: fs => (c :: f) :: fs

/-- Python `"_".join(fields)`. -/
def joinUS : List Str → Str
  | [] => []
  | [f] => f
  | f :: g :: fs => f ++ '_' :: joinUS (g :: fs)

/-- Python `s.replace(a, b)` for single-character `a`, `b`. -/
def replaceCh (a b : Char) (s : Str) : Str :=
  s.map (fun c => if c = a then b else c)

/-- Python `s.strip(chars)` generalised to a predicate: drop characters
satisfying `p` from both ends of the string. -/
def pyStripP (p : Char → Bool) (s : Str) : Str :=
  ((s.dropWhile p).reverse.dropWhile p).reverse

/-- Python `str(b)` for a boolean: the literal `"True"` or `"False"`. -/
def pyBool (b : Bool) : Str :=
  if b then str "True" else str "False"

/-- Python `needle in hay` substring test. -/
def strContains (hay needle : Str) : Bool :=
  match hay with
  | [] => needle == []
  | _ :: t => needle.isPrefixOf hay || strContains t needle

/-! ## Chunker (`_split_batch_requests`, gemini_batch.py:54-79 /
openai_batch.py:52-77)

A batch request is abstracted by its serialized byte length
(`szBytes`); `_estimate_request_size_mb` divides it by `1024 * 1024`. -/

/-- Source `_estimate_request_size_mb`: serialized length in bytes over
`1024 * 1024`. -/
def estimate_request_size_mb {α : Type} (szBytes : α → ℕ) (r : α) : ℚ :=
  (szBytes r : ℚ) / (1024 * 1024)

/-- Source `_estimate_total_size_mb`: left fold accumulating the
per-request estimates, starting from `0`. -/
def estimate_total_size_mb {α : Type} (szBytes : α → ℕ) (rs : List α) : ℚ :=
  rs.foldl (fun acc r => acc + estimate_request_size_mb szBytes r) 0

/-- Loop body of `_split_batch_requests`: walk the request list keeping
the current chunk and its accumulated size; close the current chunk
when it is non-empty and adding the next request would exceed the
limit; finally emit the last chunk if non-empty. -/
def splitGo {α : Type} [DecidableEq α] (szBytes : α → ℕ) (maxB : ℚ) :
    List α → List α → ℚ → List (List α)
  | [], cur, _ => if cur = [] then [] else [cur]
  | r :: rs, cur, curSize =>
    let s := estimate_request_size_mb szBytes r
    if cur ≠ [] ∧ maxB < curSize + s then
      cur :: splitGo szBytes maxB rs [r] s
    else
      splitGo szBytes maxB rs (cur ++ [r]) (curSize + s)

/-- Source `_split_batch_requests`. -/
def split_batch_requests {α : Type} [DecidableEq α] (szBytes : α → ℕ)
    (maxB : ℚ) (rs : List α) : List (List α) :=
  splitGo szBytes maxB rs [] 0

theorem estimate_total_eq_sum {α : Type} (szBytes : α → ℕ) (rs : List α) :
    estimate_total_size_mb szBytes rs =
      (rs.map (estimate_request_size_mb szBytes)).sum := by
  have h : ∀ (l : List α) (acc : ℚ),
      l.foldl (fun a r => a + estimate_request_size_mb szBytes r) acc =
        acc + (l.map (estimate_request_size_mb szBytes)).sum := by
    intro l
    induction l with
    | nil => intro acc; simp
    | cons x xs ih =>
      intro acc
      simp only [List.foldl_cons, List.map_cons, List.sum_cons, ih]
      ring
  simpa using h rs 0

theorem splitGo_flatten {α : Type} [DecidableEq α] (szBytes : α → ℕ)
    (maxB : ℚ) :
    ∀ (rs cur : List α) (s : ℚ),
      (splitGo szBytes maxB rs cur s).flatten = cur ++ rs := by
  intro rs
  induction rs with
  | nil =>
    intro cur s
    by_cases h : cur = [] <;> simp [splitGo, h]
  | cons r rs ih =>
    intro cur s
    rw [splitGo]
    by_cases h : cur ≠ [] ∧ maxB < s + estimate_request_size_mb szBytes r
    · rw [if_pos h]
      simp [ih]
    · rw [if_neg h]
      simp [ih]

theorem splitGo_oversized {α : Type} [DecidableEq α] (szBytes : α → ℕ)
    (maxB : ℚ) :
    ∀ (rs cur : List α) (s : ℚ),
      s = (cur.map (estimate_request_size_mb szBytes)).sum →
      ((cur.map (estimate_request_size_mb szBytes)).sum ≤ maxB ∨
        cur.length ≤ 1) →
      ∀ c ∈ splitGo szBytes maxB rs cur s,
        maxB < (c.map (estimate_request_size_mb szBytes)).sum →
        c.length = 1 := by
  intro rs
  induction rs with
  | nil =>
    intro cur s hs hinv c hc hover
    by_cases h : cur = []
    · simp [splitGo, h] at hc
    · rw [splitGo, if_neg h] at hc
      rw [List.mem_singleton] at hc
      subst hc
      rcases hinv with hle | hlen
      · exact absurd hover (not_lt.mpr hle)
      · have h0 : c.length ≠ 0 := fun h0 =>
          h (List.length_eq_zero.mp h0)
        omega
  | cons r rs ih =>
    intro cur s hs hinv c hc hover
    rw [splitGo] at hc
    by_cases h : cur ≠ [] ∧ maxB < s + estimate_request_size_mb szBytes r
    · rw [if_pos h] at hc
      rcases List.mem_cons.mp hc with rfl | hc'
      · rcases hinv with hle | hlen
        · exact absurd hover (not_lt.mpr hle)
        · have h0 : c.length ≠ 0 := fun h0 =>
            h.1 (List.length_eq_zero.mp h0)
          omega
      · exact ih [r] (estimate_request_size_mb szBytes r) (by simp)
          (Or.inr (by simp)) c hc' hover
    · rw [if_neg h] at hc
      push_neg at h
      by_cases hcur : cur = []
      · subst hcur
        exact ih [r] (s + estimate_request_size_mb szBytes r)
          (by simp at hs; simp [hs]) (Or.inr (by simp)) c (by simpa using hc)
          hover
      · have hle := h hcur
        refine ih (cur ++ [r]) (s + estimate_request_size_mb szBytes r)
          ?_ (Or.inl ?_) c hc hover
        · simp [hs]
        · simp only [List.map_append, List.sum_append, List.map_cons,
            List.map_nil, List.sum_cons, List.sum_nil]
          rw [← hs]
          simpa using hle

/-- C1: for every list of encoded requests and every `maxBytes`, the
chunker's output chunks concatenate, in order, to exactly the input
list (so every request appears in exactly one chunk and order is
preserved), and any chunk whose estimated size exceeds `maxBytes` is a
singleton. -/
theorem chunker_concat_oversized {α : Type} [DecidableEq α]
    (szBytes : α → ℕ) (maxB : ℚ) (rs : List α) :
    (split_batch_requests szBytes maxB rs).flatten = rs ∧
      ∀ c ∈ split_batch_requests szBytes maxB rs,
        maxB < estimate_total_size_mb szBytes c → c.length = 1 := by
  constructor
  · simpa using splitGo_flatten szBytes maxB rs [] 0
  · intro c hc hover
    rw [estimate_total_eq_sum] at hover
    exact splitGo_oversized szBytes maxB rs [] 0 (by simp) (Or.inr (by simp))
      c hc hover

/-! ## Correlation key (custom id) encoding and decoding
(gemini_batch.py:401 builds the key; gemini_batch.py:270-293 decodes it
by splitting on `_` and branching on the field count). -/

/-- Correlation key fields.  `idx` is carried as its decimal string
rendering, which is what both the encoder (f-string) and the decoder
(split result) manipulate. -/
structure CorrKey where
  id : Str
  idx : Str
  question_type : Str
  correct_letter : Str
  whole_page : Bool
  whole_doc : Bool
  without_context : Bool
deriving DecidableEq

/-- Python `field == "True"`, the reading applied to the decoded boolean
fields (gemini_batch.py:318-320). -/
def parseBool (t : Str) : Bool := t == str "True"

/-- Source custom id construction (gemini_batch.py:401):
underscore-join of the seven fields, with the question type's
underscores replaced by hyphens and booleans rendered `True`/`False`. -/
def encode_custom_id (k : CorrKey) : Str :=
  joinUS [k.id, k.idx, replaceCh '_' '-' k.question_type, k.correct_letter,
    pyBool k.whole_page, pyBool k.whole_doc, pyBool k.without_context]

/-- Source decoding (gemini_batch.py:270-293): split the key on `_`;
six fields unpack with `whole_doc` defaulted to `"False"`, seven fields
unpack directly, and any other field count is a Python unpacking
`ValueError`, modelled as `none`.  The question type's hyphens are
mapped back to underscores and the three boolean fields are read with
`== "True"`. -/
def decode_custom_id (s : Str) : Option CorrKey :=
  match splitUS s with
  | [i, ix, qt, cl, wp, wc] =>
    some ⟨i, ix, replaceCh '-' '_' qt, cl, parseBool wp,
      parseBool (str "False"), parseBool wc⟩
  | [i, ix, qt, cl, wp, wd, wc] =>
    some ⟨i, ix, replaceCh '-' '_' qt, cl, parseBool wp, parseBool wd,
      parseBool wc⟩
  | _ => none

theorem splitUS_no_us (f : Str) (h : '_' ∉ f) : splitUS f = [f] := by
  induction f with
  | nil => rfl
  | cons c cs ih =>
    have hc : c ≠ '_' := fun hc => h (hc ▸ List.mem_cons_self c cs)
    have hcs : '_' ∉ cs := fun hm => h (List.mem_cons_of_mem c hm)
    rw [splitUS]
    simp only [if_neg hc, ih hcs]

theorem splitUS_append_us (f t : Str) (h : '_' ∉ f) :
    splitUS (f ++ '_' :: t) = f :: splitUS t := by
  induction f with
  | nil => simp [splitUS]
  | cons c cs ih =>
    have hc : c ≠ '_' := fun hc => h (hc ▸ List.mem_cons_self c cs)
    have hcs : '_' ∉ cs := fun hm => h (List.mem_cons_of_mem c hm)
    rw [List.cons_append, splitUS]
    simp only [if_neg hc, ih hcs]

theorem splitUS_joinUS (fs : List Str) (hne : fs ≠ [])
    (h : ∀ g ∈ fs, '_' ∉ g) : splitUS (joinUS fs) = fs := by
  induction fs with
  | nil => exact absurd rfl hne
  | cons f gs ih =>
    match gs, ih with
    | [], _ => exact splitUS_no_us f (h f (List.mem_cons_self f []))
    | g :: gs, ih =>
      rw [joinUS, splitUS_append_us f _ (h f (List.mem_cons_self f _))]
      rw [ih (by simp) (fun x hx => h x (List.mem_cons_of_mem f hx))]

theorem replaceCh_not_mem (a b : Char) (s : Str) (hab : a ≠ b) :
    a ∉ replaceCh a b s := by
  intro hm
  rcases List.mem_map.mp hm with ⟨c, _, hc⟩
  by_cases h : c = a
  · rw [if_pos h] at hc; exact hab hc.symm
  · rw [if_neg h] at hc; exact h hc

theorem replaceCh_round (s : Str) (h : '-' ∉ s) :
    replaceCh '-' '_' (replaceCh '_' '-' s) = s := by
  induction s with
  | nil => rfl
  | cons c cs ih =>
    have hc : c ≠ '-' := fun hc => h (hc ▸ List.mem_cons_self c cs)
    have hcs : '-' ∉ cs := fun hm => h (List.mem_cons_of_mem c hm)
    simp only [replaceCh, List.map_cons] at *
    rw [ih hcs]
    by_cases h1 : c = '_'
    · simp [h1]
    · simp [h1, hc]

theorem pyBool_no_us (b : Bool) : '_' ∉ pyBool b := by
  cases b <;> decide

theorem parseBool_pyBool (b : Bool) : parseBool (pyBool b) = b := by
  cases b <;> decide

/-- C2 counterexample: the round trip fails as soon as a field contains
an underscore of its own — here an `id` of `"a_b"` makes the encoded
key split into eight fields, which the decoder rejects (a Python
unpacking `ValueError`), so the original fields are not recovered.  The
claim's unrestricted quantification over string fields is therefore
false. -/
theorem corr_key_round_trip_cex :
    decode_custom_id (encode_custom_id
        ⟨str "a_b", str "0", str "default", str "A", false, false, false⟩) ≠
      some ⟨str "a_b", str "0", str "default", str "A", false, false,
        false⟩ := by
  decide

/-- C2 (amended): for every correlation key whose `id`, `idx` and
`correct_letter` contain no underscore and whose `question_type`
contains no hyphen, decoding the encoded key recovers exactly the
original fields, for all boolean combinations; and the 6-field legacy
format (omitting `whole_doc`) decodes to the same fields with
`whole_doc` defaulted to false. -/
theorem corr_key_round_trip (k : CorrKey) (hid : '_' ∉ k.id)
    (hidx : '_' ∉ k.idx) (hcl : '_' ∉ k.correct_letter)
    (hqt : '-' ∉ k.question_type) :
    decode_custom_id (encode_custom_id k) = some k ∧
      ∀ (i ix qt cl : Str) (wp wc : Bool), '_' ∉ i → '_' ∉ ix → '_' ∉ cl →
        '-' ∉ qt →
        decode_custom_id
            (joinUS [i, ix, replaceCh '_' '-' qt, cl, pyBool wp,
              pyBool wc]) =
          some ⟨i, ix, qt, cl, wp, false, wc⟩ := by
  constructor
  · obtain ⟨i, ix, qt, cl, wp, wd, wc⟩ := k
    have h7 : splitUS (encode_custom_id ⟨i, ix, qt, cl, wp, wd, wc⟩) =
        [i, ix, replaceCh '_' '-' qt, cl, pyBool wp, pyBool wd,
          pyBool wc] := by
      apply splitUS_joinUS _ (by simp)
      intro g hg
      simp only [List.mem_cons, List.not_mem_nil, or_false] at hg
      rcases hg with rfl | rfl | rfl | rfl | rfl | rfl | rfl
      · exact hid
      · exact hidx
      · exact replaceCh_not_mem '_' '-' qt (by decide)
      · exact hcl
      · exact pyBool_no_us wp
      · exact pyBool_no_us wd
      · exact pyBool_no_us wc
    rw [decode_custom_id, h7]
    simp only [replaceCh_round qt hqt, parseBool_pyBool]
  · intro i ix qt cl wp wc hi hix hcl' hqt'
    have h6 : splitUS (joinUS [i, ix, replaceCh '_' '-' qt, cl, pyBool wp,
        pyBool wc]) =
        [i, ix, replaceCh '_' '-' qt, cl, pyBool wp, pyBool wc] := by
      apply splitUS_joinUS _ (by simp)
      intro g hg
      simp only [List.mem_cons, List.not_mem_nil, or_false] at hg
      rcases hg with rfl | rfl | rfl | rfl | rfl | rfl
      · exact hi
      · exact hix
      · exact replaceCh_not_mem '_' '-' qt (by decide)
      · exact hcl'
      · exact pyBool_no_us wp
      · exact pyBool_no_us wc
    rw [decode_custom_id, h6]
    simp only [replaceCh_round qt hqt', parseBool_pyBool]
    rfl

/-- Witness for the amended C2 round trip at a concrete key. -/
theorem corr_key_round_trip_witness :
    decode_custom_id (encode_custom_id
        ⟨str "p1", str "0", str "part_pair", str "A", true, false,
          true⟩) =
      some ⟨str "p1", str "0", str "part_pair", str "A", true, false,
        true⟩ :=
  (corr_key_round_trip
    ⟨str "p1", str "0", str "part_pair", str "A", true, false, true⟩
    (by decide) (by decide) (by decide) (by decide)).1

/-! ## Reconciler normalization and scoring
(gemini_batch.py:296-316 / openai_batch.py:270-291: the first textual
output is normalized with `.strip("'.\" )").upper()` and compared to
the decoded correct letter; a missing prediction stays `None` and
`None == correct_letter` is `False`). -/

/-- The exact character set of the source's `strip` call: apostrophe,
period, double quote, space, closing parenthesis. -/
def stripChars : List Char := ['\'', '.', '"', ' ', ')']

/-- Source normalization: strip the five characters from both ends,
then upper-case. -/
def normalize_prediction (s : Str) : Str :=
  (pyStripP (fun c => stripChars.contains c) s).map Char.toUpper

/-- Python's whitespace characters (the set `str.strip()` removes). -/
def isPyWhitespace (c : Char) : Bool :=
  c = ' ' || c = '\t' || c = '\n' || c = '\r' || c = '\x0b' || c = '\x0c'

/-- Modelled from the spec: a normalizer that trims the listed
character set and additionally any surrounding whitespace, then
upper-cases.  Used only to compare the spec's description against the
source's `normalize_prediction`. -/
def specNormalize (s : Str) : Str :=
  (pyStripP (fun c => stripChars.contains c || isPyWhitespace c) s).map
    Char.toUpper

/-- Source scoring: the raw text (if any) is normalized at extraction
time, and `is_correct` is `prediction == correct_letter`, with a `None`
prediction comparing unequal to any string. -/
def score_is_correct (rawText : Option Str) (cl : Str) : Bool :=
  match rawText.map normalize_prediction with
  | none => false
  | some p => p == cl

/-- C3 counterexample: the source does not trim whitespace other than
the space character.  On the raw text `"\tA"` the source's normalizer
leaves the tab in place (and scores the prediction incorrect against
correct letter `"A"`), whereas the normalization described by the claim
would trim the tab and yield `"A"`. -/
theorem reconciler_normalize_cex :
    normalize_prediction ('\t' :: str "A") = '\t' :: str "A" ∧
      specNormalize ('\t' :: str "A") = str "A" ∧
      score_is_correct (some ('\t' :: str "A")) (str "A") = false := by
  decide

/-- C3 (amended): the reconciler normalizes the predicted text by
trimming only the characters `'`, `.`, `"`, space and `)` from both
ends (whitespace other than the space character is not trimmed) and
upper-casing, so `"A)"`, `" a "` and `"'A.'"` all normalize to `"A"`;
a present prediction is scored correct iff its normalization equals the
correct letter exactly; and missing (null) predictions, and predictions
whose normalization is empty or multi-character (against the
single-character correct letter), are scored incorrect rather than
raising an error. -/
theorem reconciler_normalize (p cl : Str) (hcl : cl.length = 1) :
    normalize_prediction (str "A)") = str "A" ∧
      normalize_prediction (str " a ") = str "A" ∧
      normalize_prediction (str "'A.'") = str "A" ∧
      score_is_correct (some p) cl = (normalize_prediction p == cl) ∧
      score_is_correct none cl = false ∧
      ((normalize_prediction p).length ≠ 1 →
        score_is_correct (some p) cl = false) := by
  refine ⟨by decide, by decide, by decide, rfl, rfl, ?_⟩
  intro hlen
  simp only [score_is_correct, Option.map_some']
  rw [beq_eq_false_iff_ne]
  intro he
  exact hlen (by rw [he, hcl])

/-- Witness for the amended C3 at a concrete multi-character
prediction. -/
theorem reconciler_normalize_witness :
    (str "A").length = 1 ∧
      score_is_correct (some (str "AB")) (str "A") = false :=
  ⟨by decide,
    (reconciler_normalize (str "AB") (str "A") (by decide)).2.2.2.2.2
      (by decide)⟩

/-! ## MCQ data model and answer preparation
(types.py:43-64; helpers.py:18-32 `prepare_answers`).  Python's
`dict(zip(letters, answers))` is embedded by its two observable
operations: key lookup returns the value of the *last* pair with that
key, and the key set is the first-occurrence deduplication of the
zipped keys.  `sorted()` on strings is embedded as a stable insertion
sort under the lexicographic order on character lists. -/

structure MCQItem where
  question : Str
  correct : Str
  incorrect : List Str
  letters : List Str
deriving DecidableEq

structure MCQ where
  default : MCQItem
  binary_consistent : MCQItem
  binary_inconsistent : MCQItem
  edit : MCQItem
  default_natural : MCQItem
  part_pair : Option MCQItem
deriving DecidableEq

inductive InconsistencyPart where
  | image (page : ℕ) (image_id : Str)
  | text (page : ℕ) (content : Str) (line : ℕ)
deriving DecidableEq

structure AnnotationEntry where
  inconsistency_parts : List InconsistencyPart
  review_text : Str
  category : Str
  description : Str
  mcq : MCQ
deriving DecidableEq

/-- Python `d[k]` for `d = dict(pairs)`: the value of the last pair
with key `k`, if any. -/
def dictGet (pairs : List (Str × Str)) (k : Str) : Option Str :=
  (pairs.reverse.find? (fun p => p.1 == k)).map Prod.snd

/-- Python `d.keys()` for `d = dict(pairs)`: zipped keys, first
occurrence kept. -/
def dictKeys (pairs : List (Str × Str)) : List Str :=
  (pairs.map Prod.fst).eraseDups

/-- Python `sorted()` on a list of strings (lexicographic by code
point). -/
def pySorted (l : List Str) : List Str :=
  List.insertionSort (fun a b : Str => a ≤ b) l

/-- Source `prepare_answers` (helpers.py:18-32): answers are
`[correct] + incorrect`, the letter-to-answer dict is
`dict(zip(letters, answers))`, display order is `sorted(keys)`, options
are rendered `"L) text"` when `"binary"` occurs in the question type
and as the bare text otherwise, and the returned correct letter is
`letters[0]`. -/
def prepare_answers (mcq : MCQItem) (question_type : Str) :
    List Str × Str :=
  let answers := mcq.correct :: mcq.incorrect
  let pairs := mcq.letters.zip answers
  let sortedLetters := pySorted (dictKeys pairs)
  let answer_options :=
    if strContains question_type (str "binary") then
      sortedLetters.map (fun l => l ++ str ") " ++ (dictGet pairs l).getD [])
    else
      sortedLetters.map (fun l => (dictGet pairs l).getD [])
  (answer_options, mcq.letters.headD [])

/-- Modelled from the spec: the correct letter as §4.1 describes it for
default/wholeDoc — whichever letter maps to the `correct` text after
the sort (the first such letter in display order).  Used only to
compare the spec's description against the source's
`prepare_answers`. -/
def specCorrectLetterDefault (mcq : MCQItem) : Option Str :=
  let pairs := mcq.letters.zip (mcq.correct :: mcq.incorrect)
  (pySorted (dictKeys pairs)).find?
    (fun l => (dictGet pairs l).getD [] == mcq.correct)

/-- C5 counterexample: `prepare_answers` always returns `letters[0]`,
not the letter that maps to the correct text after sorting.  With
letters `["B", "A"]`, correct text `"X"` and incorrect texts `["X"]`,
the letter mapping to the correct text in display order is `"A"`, but
the source returns `"B" = letters[0]`. -/
theorem prepare_answers_cex :
    (prepare_answers ⟨str "q", str "X", [str "X"], [str "B", str "A"]⟩
        (str "default")).2 = str "B" ∧
      specCorrectLetterDefault
          ⟨str "q", str "X", [str "X"], [str "B", str "A"]⟩ =
        some (str "A") ∧
      (str "B" : Str) ≠ str "A" := by
  decide

theorem dictGet_head (l0 : Str) (ls : List Str) (c : Str) (inc : List Str)
    (hnd : (l0 :: ls).Nodup) :
    dictGet ((l0 :: ls).zip (c :: inc)) l0 = some c := by
  rw [dictGet, List.zip_cons_cons, List.reverse_cons, List.find?_append]
  have hnone : (ls.zip inc).reverse.find? (fun p => p.1 == l0) = none := by
    rw [List.find?_eq_none]
    intro p hp
    rcases p with ⟨a, b⟩
    have ha : a ∈ ls := (List.of_mem_zip (List.mem_reverse.mp hp)).1
    have : a ≠ l0 := fun h => (List.nodup_cons.mp hnd).1 (h ▸ ha)
    simpa using this
  rw [hnone]
  simp [dictGet]

/-- C5 (amended): in default/wholeDoc mode the answer options are
displayed in the lexicographic sort order of the item's declared
letters, and the correct letter returned is always `letters[0]`; when
the letters are distinct, `letters[0]` is exactly the letter that the
letter-to-answer dict maps to the correct answer text (so the sorted
display does not change which letter is correct — it is just not
recomputed after the sort). -/
theorem prepare_answers_correct_letter (mcq : MCQItem) (qt : Str)
    (hne : mcq.letters ≠ []) :
    (prepare_answers mcq qt).2 = mcq.letters.headD [] ∧
      (mcq.letters.Nodup →
        dictGet (mcq.letters.zip (mcq.correct :: mcq.incorrect))
            (mcq.letters.headD []) =
          some mcq.correct) ∧
      (prepare_answers mcq qt).1 =
        (pySorted (dictKeys
            (mcq.letters.zip (mcq.correct :: mcq.incorrect)))).map
          (fun l =>
            if strContains qt (str "binary") then
              l ++ str ") " ++
                (dictGet (mcq.letters.zip (mcq.correct :: mcq.incorrect))
                    l).getD []
            else
              (dictGet (mcq.letters.zip (mcq.correct :: mcq.incorrect))
                  l).getD []) ∧
      List.Sorted (fun a b : Str => a ≤ b)
        (pySorted (dictKeys
          (mcq.letters.zip (mcq.correct :: mcq.incorrect)))) := by
  refine ⟨rfl, ?_, ?_, List.sorted_insertionSort _ _⟩
  · intro hnd
    match hl : mcq.letters, hne with
    | l0 :: ls, _ =>
      rw [List.headD_cons]
      exact dictGet_head l0 ls mcq.correct mcq.incorrect (hl ▸ hnd)
  · rw [prepare_answers]
    by_cases hb : strContains qt (str "binary")
    · simp [hb]
    · simp [hb]

/-- Witness for the amended C5 at a concrete MCQ item with distinct
letters in non-sorted order. -/
theorem prepare_answers_correct_letter_witness :
    (prepare_answers ⟨str "q", str "yes", [str "no"],
          [str "B", str "A"]⟩ (str "default")).2 = str "B" ∧
      dictGet [(str "B", str "yes"), (str "A", str "no")] (str "B") =
        some (str "yes") := by
  have h := prepare_answers_correct_letter
    ⟨str "q", str "yes", [str "no"], [str "B", str "A"]⟩
    (str "default") (by decide)
  exact ⟨h.1, h.2.1 (by decide)⟩

/-! ## Context builders and per-item provider dispatch
(base.py:89-205; gemini_batch.py:119-172, 417-511;
openai_batch.py:114-167, 392-500; cluster.py:387-431, 521-565).

File-system access (`convert_image_to_base64`) is abstracted by a
`loadImage` function from a path to an optional base64 payload (`none`
models the source's `None` on a missing image).  The two asynchronous
batch backends (gemini_batch.py and openai_batch.py) have per-item
logic that differs only in the provider wire-format wrapper around the
generic items, which no claim inspects, so both are embedded by the
single `batch_provider_step`; the synchronous vLLM backend
(cluster.py), whose dispatch differs, is embedded separately. -/

inductive GenericItem where
  | text (t : Str)
  | image (b64 : Option Str)
deriving DecidableEq

/-- The six attribute names of the MCQ bundle that `getattr` can
resolve (types.py:50-56). -/
inductive QType where
  | default
  | binary_consistent
  | binary_inconsistent
  | edit
  | default_natural
  | part_pair
deriving DecidableEq

def QType.toStr : QType → Str
  | .default => str "default"
  | .binary_consistent => str "binary_consistent"
  | .binary_inconsistent => str "binary_inconsistent"
  | .edit => str "edit"
  | .default_natural => str "default_natural"
  | .part_pair => str "part_pair"

/-- Python `getattr(mcq, question_type)`; for `part_pair` the field is
optional (an absent MCQ is the falsy `{}` default). -/
def getMCQ (m : MCQ) : QType → Option MCQItem
  | .default => some m.default
  | .binary_consistent => some m.binary_consistent
  | .binary_inconsistent => some m.binary_inconsistent
  | .edit => some m.edit
  | .default_natural => some m.default_natural
  | .part_pair => m.part_pair

/-- Modelled from the spec: the fixed closing instruction block
appended after the sorted answers (§4.1).  The defining file
utils/prompts.py is not among the provided sources; no claim depends on
its text. -/
def after_question_prompt : Str := str "closing-instruction"

/-- Python `os.path.join` for the two-argument calls in the source. -/
def osJoin (d f : Str) : Str :=
  if f.head? = some '/' then f
  else if d = [] then f
  else if d.getLast? = some '/' then d ++ f
  else d ++ str "/" ++ f

/-- Default of the `IMAGE_DIR` environment variable. -/
def IMAGE_DIR : Str := str "images"

/-- Default of the `SUPPL_IMAGE_DIR` environment variable. -/
def SUPPL_IMAGE_DIR : Str := str "suppl_images"

/-- Source `build_without_context` (base.py:136-147): question, then
the sorted answer options, then the closing instruction; no
part-derived blocks.  `none` models the failed attribute access when
the requested MCQ variant is absent. -/
def build_without_context (ann : AnnotationEntry) (qt : QType) :
    Option (List GenericItem × Str × List Str × Str) :=
  (getMCQ ann.mcq qt).map (fun mcq_item =>
    let pa := prepare_answers mcq_item qt.toStr
    (GenericItem.text mcq_item.question ::
        (pa.1.map GenericItem.text ++
          [GenericItem.text after_question_prompt]),
      mcq_item.question, pa.1, pa.2))

/-- Source `build_part_pair_context` (base.py:149-205).  Returns
`([], "")` when the `part_pair` MCQ is absent or lacks a question or
correct answer; otherwise builds the fixed intro text, the stem (an
image when the document id occurs in the question text, else the
question text), the fixed middle instruction, one letter label plus one
image per sorted answer option (supplementary images being those whose
id splits on `_` into four or more pieces), and the closing
instruction.  `none` models the `ValueError` of `list.index` when the
correct text is not among the rendered options. -/
def build_part_pair_context (loadImage : Str → Option Str)
    (ann : AnnotationEntry) (id : Str) :
    Option (List GenericItem × Str) :=
  match ann.mcq.part_pair with
  | none => some ([], [])
  | some m =>
    if m.question = [] ∨ m.correct = [] then some ([], [])
    else
      let pairs := m.letters.zip (m.correct :: m.incorrect)
      let sorted_letters := pySorted (dictKeys pairs)
      let answer_options :=
        sorted_letters.map (fun l => (dictGet pairs l).getD [])
      match answer_options.findIdx? (fun a => a == m.correct) with
      | none => none
      | some i =>
        let correct_letter := sorted_letters.getD i []
        let stem : GenericItem :=
          if strContains m.question id then
            GenericItem.image
              (loadImage (osJoin IMAGE_DIR (m.question ++ str ".png")))
          else GenericItem.text m.question
        let optionItems : List GenericItem :=
          (sorted_letters.zip answer_options).flatMap (fun p =>
            [GenericItem.text (p.1 ++ str ")"),
              GenericItem.image (loadImage
                (if (splitUS p.2).length < 4 then
                  osJoin IMAGE_DIR (p.2 ++ str ".png")
                else
                  osJoin SUPPL_IMAGE_DIR (p.2 ++ str ".png")))])
        some (GenericItem.text
            (str "You are provided with a part of a scientific paper:") ::
          stem ::
          GenericItem.text
            (str "The combination with one of the other parts within the same paper results in an inconsistency. Pick the letter of the correct answer option.") ::
          (optionItems ++ [GenericItem.text after_question_prompt]),
          correct_letter)

/-- Outcome of handling one annotation entry inside
`run_mcq_inference`: a batch request (or synchronous inference) tagged
by its correlation key or correct letter, a silent skip, or a raised
exception. -/
inductive StepOutcome where
  | emit (payload : Str)
  | skip
  | failure (msg : Str)
deriving DecidableEq

/-- Common embedding of `_handle_one_annotation_without_context` for
the two batch backends (gemini_batch.py:417-459,
openai_batch.py:392-441): build the without-context items and append a
request keyed by the correlation key. -/
def batch_handle_without_context (id idx : Str) (ann : AnnotationEntry)
    (qt : QType) (wp wd wc : Bool) : StepOutcome :=
  match build_without_context ann qt with
  | none => .failure (str "AttributeError")
  | some (_, _, _, correct_letter) =>
    .emit (encode_custom_id ⟨id, idx, qt.toStr, correct_letter, wp, wd, wc⟩)

/-- Common embedding of `_handle_one_part_pair_annotation` for the two
batch backends (gemini_batch.py:461-511, openai_batch.py:443-500):
build the part-pair items, return without appending anything when they
are empty, else append a request keyed by the correlation key. -/
def batch_handle_part_pair (loadImage : Str → Option Str) (id idx : Str)
    (ann : AnnotationEntry) (qt : QType) (wp wd wc : Bool) : StepOutcome :=
  match build_part_pair_context loadImage ann id with
  | none => .failure (str "ValueError")
  | some (items, correct_letter) =>
    if items = [] then .skip
    else
      .emit (encode_custom_id
        ⟨id, idx, qt.toStr, correct_letter, wp, wd, wc⟩)

/-- Per-item dispatch of `run_mcq_inference` for the two batch
backends (gemini_batch.py:119-172, openai_batch.py:114-167):
whole-page/whole-doc are forced off for `part_pair`; a `without_context`
run goes to the without-context handler for every question type; the
default branch appends a request keyed by the correlation key (its
context blocks, which depend on the filesystem, are not inspected by
any claim). -/
def batch_provider_step (loadImage : Str → Option Str) (id idx : Str)
    (ann : AnnotationEntry) (qt : QType) (wp0 wd0 wc : Bool) :
    StepOutcome :=
  let wp := if qt = .part_pair then false else wp0
  let wd := if qt = .part_pair then false else wd0
  if wc then batch_handle_without_context id idx ann qt wp wd wc
  else if qt = .part_pair then
    batch_handle_part_pair loadImage id idx ann qt wp wd wc
  else
    match getMCQ ann.mcq qt with
    | none => .failure (str "AttributeError")
    | some mcq_item =>
      .emit (encode_custom_id
        ⟨id, idx, qt.toStr, (prepare_answers mcq_item qt.toStr).2, wp, wd,
          wc⟩)

/-- Per-item dispatch of `run_mcq_inference` for the synchronous vLLM
backend (cluster.py:387-431): `without_context` combined with
`part_pair` raises a `ValueError`; otherwise the matching handler runs
inference and appends a response scored against the correct letter
(the emitted payload). -/
def cluster_step (loadImage : Str → Option Str) (id : Str)
    (ann : AnnotationEntry) (qt : QType) (wc : Bool) : StepOutcome :=
  if wc then
    if qt = .part_pair then
      .failure
        (str "without_context=True is not supported for question_type=part_pair")
    else
      match build_without_context ann qt with
      | none => .failure (str "AttributeError")
      | some (_, _, _, correct_letter) => .emit correct_letter
  else if qt = .part_pair then
    match build_part_pair_context loadImage ann id with
    | none => .failure (str "ValueError")
    | some (items, correct_letter) =>
      if items = [] then .skip else .emit correct_letter
  else
    match getMCQ ann.mcq qt with
    | none => .failure (str "AttributeError")
    | some mcq_item => .emit (prepare_answers mcq_item qt.toStr).2

/-- Source `iter_annotations` (base.py:89-99): enumerate every entry of
every document, skipping entries without a `part_pair` MCQ when the
question type is `part_pair`. -/
def iter_annotations (data : List (Str × List AnnotationEntry))
    (qt : QType) : List (Str × ℕ × AnnotationEntry) :=
  data.flatMap (fun kv =>
    kv.2.enum.filterMap (fun ie =>
      if qt = .part_pair ∧ ie.2.mcq.part_pair = none then none
      else some (kv.1, ie.1, ie.2)))

/-- A minimal MCQ item used as filler for the always-present variants
in concrete test annotations. -/
def mcqSmall : MCQItem := ⟨str "q", str "c", [], [str "A"]⟩

/-- A concrete part-pair MCQ item with a question and a correct
answer. -/
def mcqPP : MCQItem := ⟨str "pq", str "img1", [str "img2"], [str "A", str "B"]⟩

/-- A concrete annotation entry whose `part_pair` MCQ is present. -/
def annPP : AnnotationEntry :=
  ⟨[], [], [], [], ⟨mcqSmall, mcqSmall, mcqSmall, mcqSmall, mcqSmall,
    some mcqPP⟩⟩

/-- A concrete annotation entry whose `part_pair` MCQ is present but
has an empty question text. -/
def annPPEmptyQ : AnnotationEntry :=
  ⟨[], [], [], [], ⟨mcqSmall, mcqSmall, mcqSmall, mcqSmall, mcqSmall,
    some ⟨[], str "c", [], [str "A"]⟩⟩⟩

/-- C6 counterexample: on a batch backend, a `without_context` run with
question type `part_pair` does not raise — it emits a batch request
(keyed with the part-pair correct letter), contradicting the claim that
every provider backend fails with an unsupported-mode error. -/
theorem without_context_part_pair_cex :
    batch_provider_step (fun _ => none) (str "p1") (str "0") annPP
        .part_pair false false true =
      .emit (str "p1_0_part-pair_A_False_False_True") := by
  decide

/-- C6 (amended): `without_context` combined with
`question_type == part_pair` raises a `ValueError` only in the
synchronous vLLM (cluster) backend; the gemini and openai batch
backends instead build a without-context batch request for the
part-pair MCQ. -/
theorem without_context_part_pair (loadImage : Str → Option Str)
    (id idx : Str) (ann : AnnotationEntry) (wp wd : Bool) (m : MCQItem)
    (hm : ann.mcq.part_pair = some m) :
    cluster_step loadImage id ann .part_pair true =
      .failure
        (str "without_context=True is not supported for question_type=part_pair") ∧
      batch_provider_step loadImage id idx ann .part_pair wp wd true =
        .emit (encode_custom_id
          ⟨id, idx, str "part_pair",
            (prepare_answers m (str "part_pair")).2, false, false,
            true⟩) := by
  constructor
  · simp [cluster_step]
  · simp [batch_provider_step, batch_handle_without_context,
      build_without_context, getMCQ, hm, QType.toStr]

/-- Witness for the amended C6 at a concrete annotation. -/
theorem without_context_part_pair_witness :
    annPP.mcq.part_pair = some mcqPP ∧
      batch_provider_step (fun _ => none) (str "p1") (str "0") annPP
          .part_pair false false true =
        .emit (encode_custom_id
          ⟨str "p1", str "0", str "part_pair",
            (prepare_answers mcqPP (str "part_pair")).2, false, false,
            true⟩) :=
  ⟨rfl,
    (without_context_part_pair (fun _ => none) (str "p1") (str "0") annPP
      false false mcqPP rfl).2⟩

/-- C9: when the part-pair MCQ is absent, or present but lacking a
question or a correct answer, the part-pair context builder returns
empty items and an empty correct letter, every provider's per-item
dispatch skips the entry without raising and without emitting anything,
and an entry with an absent part-pair MCQ is already filtered out of
the annotation iteration for part-pair runs. -/
theorem part_pair_guard (loadImage : Str → Option Str) (id idx : Str)
    (ann : AnnotationEntry) (wp wd : Bool)
    (h : ann.mcq.part_pair = none ∨
      ∃ m, ann.mcq.part_pair = some m ∧
        (m.question = [] ∨ m.correct = [])) :
    build_part_pair_context loadImage ann id = some ([], []) ∧
      batch_provider_step loadImage id idx ann .part_pair wp wd false =
        .skip ∧
      cluster_step loadImage id ann .part_pair false = .skip ∧
      ∀ (data : List (Str × List AnnotationEntry)) (k : Str) (i : ℕ),
        ann.mcq.part_pair = none →
        (k, i, ann) ∉ iter_annotations data .part_pair := by
  have hb : build_part_pair_context loadImage ann id = some ([], []) := by
    rcases h with hnone | ⟨m, hm, hqc⟩
    · rw [build_part_pair_context, hnone]
    · rw [build_part_pair_context, hm]
      simp only [if_pos hqc]
  refine ⟨hb, ?_, ?_, ?_⟩
  · simp [batch_provider_step, batch_handle_part_pair, hb]
  · simp [cluster_step, hb]
  · intro data k i hnone hmem
    rw [iter_annotations, List.mem_flatMap] at hmem
    obtain ⟨kv, _, hmem2⟩ := hmem
    rw [List.mem_filterMap] at hmem2
    obtain ⟨ie, _, heq⟩ := hmem2
    by_cases hc : ie.2.mcq.part_pair = none
    · rw [if_pos ⟨rfl, hc⟩] at heq
      exact Option.noConfusion heq
    · rw [if_neg (fun hand => hc hand.2)] at heq
      rw [Option.some.injEq, Prod.mk.injEq] at heq
      obtain ⟨-, heq2⟩ := heq
      rw [Prod.mk.injEq] at heq2
      exact hc (by rw [heq2.2, hnone])

/-- Witness for C9 at a concrete annotation whose part-pair MCQ has an
empty question. -/
theorem part_pair_guard_witness :
    (annPPEmptyQ.mcq.part_pair = none ∨
        ∃ m, annPPEmptyQ.mcq.part_pair = some m ∧
          (m.question = [] ∨ m.correct = [])) ∧
      build_part_pair_context (fun _ => none) annPPEmptyQ (str "p1") =
        some ([], []) ∧
      batch_provider_step (fun _ => none) (str "p1") (str "0")
          annPPEmptyQ .part_pair false false false = .skip :=
  have h := part_pair_guard (fun _ => none) (str "p1") (str "0")
    annPPEmptyQ false false (Or.inr ⟨_, rfl, Or.inl rfl⟩)
  ⟨Or.inr ⟨_, rfl, Or.inl rfl⟩, h.1, h.2.1⟩

/-! ## Results file path (`write_results`, base.py:210-225). -/

/-- Default of the `RESULTS_DIR` environment variable. -/
def RESULTS_DIR : Str := str "results"

/-- Source `write_results` file path (base.py:218-221): the model id
with `/` and `_` replaced by `-`, an underscore, the question type with
`_` replaced by `-`, then `_fullpage`, `_wholedoc`,
`_without_context` suffixes for the enabled flags, then `.json`,
joined under the results directory. -/
def write_results_path (model_id question_type : Str)
    (wp wd wc : Bool) : Str :=
  osJoin RESULTS_DIR
    (replaceCh '_' '-' (replaceCh '/' '-' model_id) ++ str "_" ++
      replaceCh '_' '-' question_type ++
      (if wp then str "_fullpage" else []) ++
      (if wd then str "_wholedoc" else []) ++
      (if wc then str "_without_context" else []) ++ str ".json")

/-- Modelled from the spec: the results path as §6 describes it —
`results/{model}_{questionType}{-fullpage?}{-wholedoc?}{-without-context?}.json`
with only the model sanitized.  Used only to compare the spec's
description against the source's `write_results_path`. -/
def specResultsPath (model_id question_type : Str)
    (wp wd wc : Bool) : Str :=
  str "results/" ++ replaceCh '_' '-' (replaceCh '/' '-' model_id) ++
    str "_" ++ question_type ++
    (if wp then str "-fullpage" else []) ++
    (if wd then str "-wholedoc" else []) ++
    (if wc then str "-without-context" else []) ++ str ".json"

theorem mem_replaceCh (a b : Char) (s : Str) (c : Char)
    (h : c ∈ replaceCh a b s) : c = b ∨ c ∈ s := by
  rcases List.mem_map.mp h with ⟨d, hd, hc⟩
  by_cases hda : d = a
  · left; rw [← hc, if_pos hda]
  · right; rw [← hc, if_neg hda]; exact hd

theorem sanitized_model_chars (m : Str) (c : Char)
    (h : c ∈ replaceCh '_' '-' (replaceCh '/' '-' m)) :
    c ≠ '/' ∧ c ≠ '_' := by
  constructor
  · intro hc
    subst hc
    rcases mem_replaceCh '_' '-' _ _ h with h1 | h1
    · exact absurd h1 (by decide)
    · exact replaceCh_not_mem '/' '-' m (by decide) h1
  · intro hc
    subst hc
    exact replaceCh_not_mem '_' '-' _ (by decide) h

theorem osJoin_results (f : Str) (hf : f.head? ≠ some '/') :
    osJoin RESULTS_DIR f = str "results/" ++ f := by
  rw [osJoin, if_neg hf, if_neg (by decide), if_neg (by decide)]
  show (RESULTS_DIR ++ str "/") ++ f = str "results/" ++ f
  congr 1

/-- C8 counterexample: the source writes suffixes with underscores and
hyphenates the question type, so for model `"m"`, question type
`"part_pair"` and the full-page flag enabled the actual path is
`results/m_part-pair_fullpage.json`, not the claimed
`results/m_part_pair-fullpage.json`. -/
theorem write_results_path_cex :
    write_results_path (str "m") (str "part_pair") true false false =
        str "results/m_part-pair_fullpage.json" ∧
      specResultsPath (str "m") (str "part_pair") true false false =
        str "results/m_part_pair-fullpage.json" ∧
      (str "results/m_part-pair_fullpage.json" : Str) ≠
        str "results/m_part_pair-fullpage.json" := by
  decide

/-- C8 (amended): the results file is written to
`results/{model}_{questionType}{_fullpage?}{_wholedoc?}{_without_context?}.json`
where `model` has every `/` and `_` replaced with `-` and
`questionType` has every `_` replaced with `-`; each enabled flag
contributes exactly its underscore suffix and a disabled flag
contributes nothing; and the sanitized model contains no `/` and no
`_`. -/
theorem write_results_path_shape (model_id question_type : Str)
    (wp wd wc : Bool) :
    write_results_path model_id question_type wp wd wc =
        str "results/" ++
          (replaceCh '_' '-' (replaceCh '/' '-' model_id) ++ str "_" ++
            replaceCh '_' '-' question_type ++
            (if wp then str "_fullpage" else []) ++
            (if wd then str "_wholedoc" else []) ++
            (if wc then str "_without_context" else []) ++ str ".json") ∧
      ∀ c ∈ replaceCh '_' '-' (replaceCh '/' '-' model_id),
        c ≠ '/' ∧ c ≠ '_' := by
  refine ⟨?_, fun c hc => sanitized_model_chars model_id c hc⟩
  rw [write_results_path]
  apply osJoin_results
  cases hsm : replaceCh '_' '-' (replaceCh '/' '-' model_id) with
  | nil => simp [hsm, str]
  | cons c cs =>
    have hcne : c ≠ '/' :=
      (sanitized_model_chars model_id c
        (hsm ▸ List.mem_cons_self c cs)).1
    simp [hsm, hcne]

/-! ## Fetching batch results (`get_batch_results`,
gemini_batch.py:213-325 / openai_batch.py:208-300).

A remote batch job is observed through its reported state string and
the optional content of its result file (a list of raw lines, each
carrying the correlation key and the extracted first textual output).
The gemini succeeded state is `"JOB_STATE_SUCCEEDED"`, the openai one
is `"completed"`; in both sources a job in any other state raises a
`ValueError` before any results file is written. -/

structure RawResult where
  key : Str
  text : Option Str
deriving DecidableEq

structure BatchJob where
  state : Str
  output : Option (List RawResult)
deriving DecidableEq

/-- Gemini terminal success state name. -/
def GEMINI_SUCCEEDED : Str := str "JOB_STATE_SUCCEEDED"

/-- OpenAI terminal success state name. -/
def OPENAI_COMPLETED : Str := str "completed"

/-- Collection loop of `get_batch_results`: walk the referenced jobs in
order; raise on the first job whose state is not the succeeded state
(or whose result file is missing); otherwise accumulate its raw result
lines. -/
def collect_batch_results (succeededState : Str) :
    List BatchJob → Except Str (List RawResult)
  | [] => .ok []
  | j :: js =>
    if j.state ≠ succeededState then
      .error (str "not ready yet. Status: " ++ j.state)
    else
      match j.output with
      | none => .error (str "No output file found")
      | some ls => (collect_batch_results succeededState js).map (ls ++ ·)

structure ScoredRow where
  id : Str
  idx : Str
  question_type : Str
  correct_letter : Str
  prediction : Option Str
  is_correct : Bool
deriving DecidableEq

/-- Per-line reconciliation: decode the correlation key (an undecodable
key is the Python unpacking `ValueError`, modelled as `none`),
normalize the extracted text, score it against the correct letter, and
carry the decoded flags for the final `write_results` call. -/
def process_result_line (r : RawResult) :
    Option (ScoredRow × Str × Bool × Bool × Bool) :=
  (decode_custom_id r.key).map (fun k =>
    (⟨k.id, k.idx, k.question_type, k.correct_letter,
        r.text.map normalize_prediction,
        score_is_correct r.text k.correct_letter⟩,
      k.question_type, k.whole_page, k.whole_doc, k.without_context))

/-- Reconciliation loop: process every raw line; the question type and
flags that reach `write_results` are those of the last processed line
(they are plain loop variables in the source); an empty line list
leaves them unbound (a Python `UnboundLocalError`), modelled as
`none`. -/
def process_result_lines :
    List RawResult → Option (List ScoredRow × Str × Bool × Bool × Bool)
  | [] => none
  | [r] => (process_result_line r).map (fun p => ([p.1], p.2))
  | r :: r2 :: rest =>
    match process_result_line r, process_result_lines (r2 :: rest) with
    | some p, some (rows, last) => some (p.1 :: rows, last)
    | _, _ => none

/-- Source `get_batch_results`: check and collect every referenced
job's raw lines, reconcile them, and only then write the results file
(whose path is the second component of the `ok` payload). -/
def get_batch_results (succeededState model : Str)
    (jobs : List BatchJob) : Except Str (List ScoredRow × Str) :=
  match collect_batch_results succeededState jobs with
  | .error e => .error e
  | .ok lines =>
    match process_result_lines lines with
    | none => .error (str "ValueError")
    | some (rows, qt, wp, wd, wc) =>
      .ok (rows, write_results_path model (replaceCh '_' '-' qt) wp wd wc)

/-- The results file written by a `get_batch_results` run: none when
the run raised. -/
def written_results_file (succeededState model : Str)
    (jobs : List BatchJob) : Option Str :=
  match get_batch_results succeededState model jobs with
  | .error _ => none
  | .ok p => some p.2

theorem collect_error_of_bad_state (st : Str) (jobs : List BatchJob)
    (h : ∃ j ∈ jobs, j.state ≠ st) :
    ∃ e, collect_batch_results st jobs = .error e := by
  induction jobs with
  | nil => simp at h
  | cons j js ih =>
    by_cases hj : j.state ≠ st
    · exact ⟨_, by rw [collect_batch_results, if_pos hj]⟩
    · push_neg at hj
      obtain ⟨j', hj', hne⟩ := h
      rcases List.mem_cons.mp hj' with rfl | hj'mem
      · exact absurd hj hne
      · obtain ⟨e, he⟩ := ih ⟨j', hj'mem, hne⟩
        rw [collect_batch_results, if_neg (by simpa using hj)]
        match hout : j.output with
        | none => exact ⟨_, rfl⟩
        | some ls => exact ⟨e, by rw [he]; rfl⟩

/-- C7: fetching results is valid only from the provider's succeeded
state — if any referenced batch job is in a different state,
`get_batch_results` raises (a job-not-ready `ValueError`) and no
results file is written for that run.  Instantiating `st` with
`GEMINI_SUCCEEDED` or `OPENAI_COMPLETED` gives the two providers. -/
theorem get_batch_results_not_ready (st model : Str)
    (jobs : List BatchJob) (h : ∃ j ∈ jobs, j.state ≠ st) :
    (∃ e, get_batch_results st model jobs = .error e) ∧
      written_results_file st model jobs = none := by
  obtain ⟨e, he⟩ := collect_error_of_bad_state st jobs h
  refine ⟨⟨e, ?_⟩, ?_⟩
  · rw [get_batch_results, he]
  · rw [written_results_file, get_batch_results, he]

/-- Witness for C7 at a concrete pending gemini job. -/
theorem get_batch_results_not_ready_witness :
    (∃ j ∈ [(⟨str "JOB_STATE_PENDING", none⟩ : BatchJob)],
        j.state ≠ GEMINI_SUCCEEDED) ∧
      written_results_file GEMINI_SUCCEEDED (str "gemini-2.0-flash")
          [⟨str "JOB_STATE_PENDING", none⟩] = none :=
  ⟨⟨⟨str "JOB_STATE_PENDING", none⟩, by decide⟩,
    (get_batch_results_not_ready GEMINI_SUCCEEDED (str "gemini-2.0-flash")
      [⟨str "JOB_STATE_PENDING", none⟩]
      ⟨⟨str "JOB_STATE_PENDING", none⟩, by decide⟩).2⟩

/-! ## Binary-result merge (`merge_binary_results`, helpers.py:210-247).

The pure merge over the two parsed result lists is
`merge_binary_results_list`; the file-level wrapper with the
same-directory guard, the reads and the output path is
`merge_binary_results` below, with the filesystem abstracted by a
`readFile` function and `os.path.abspath` (which depends on the working
directory) by an `abspath` function. -/

structure BinResult where
  id : Str
  idx : ℕ
  prediction : Str
  correct_letter : Str
  is_correct : Bool
deriving DecidableEq

/-- Python `results2_lookup = {(id, idx): item for item in results2}`
followed by `.get(key)`: the last item with the key wins. -/
def results2_lookup (rs2 : List BinResult) (i : Str) (n : ℕ) :
    Option BinResult :=
  rs2.reverse.find? (fun r => r.id == i && r.idx == n)

/-- Loop of `merge_binary_results` (helpers.py:222-241): walk
`results1` in order; raise carrying the key on the first item with no
counterpart in `results2`; otherwise append the merged record whose
prediction and correct letter are the call-order concatenations and
whose `is_correct` is their exact string equality. -/
def merge_binary_results_list (rs1 rs2 : List BinResult) :
    Except (Str × ℕ) (List BinResult) :=
  match rs1 with
  | [] => .ok []
  | r1 :: rest =>
    match results2_lookup rs2 r1.id r1.idx with
    | none => .error (r1.id, r1.idx)
    | some r2 =>
      (merge_binary_results_list rest rs2).map (fun out =>
        ⟨r1.id, r1.idx, r1.prediction ++ r2.prediction,
          r1.correct_letter ++ r2.correct_letter,
          r1.prediction ++ r2.prediction ==
            r1.correct_letter ++ r2.correct_letter⟩ :: out)

instance {ε α : Type} [DecidableEq ε] [DecidableEq α] :
    DecidableEq (Except ε α) := fun x y =>
  match x, y with
  | .error a, .error b =>
    if h : a = b then .isTrue (congrArg Except.error h)
    else .isFalse (fun hh => h (Except.error.inj hh))
  | .ok a, .ok b =>
    if h : a = b then .isTrue (congrArg Except.ok h)
    else .isFalse (fun hh => h (Except.ok.inj hh))
  | .error _, .ok _ => .isFalse (fun hh => Except.noConfusion hh)
  | .ok _, .error _ => .isFalse (fun hh => Except.noConfusion hh)

/-- C4 counterexample: when a key occurs twice in `results1` the merge
produces one merged record per occurrence, i.e. two records for that
key rather than the single record the claim asserts. -/
theorem merge_binary_results_cex :
    merge_binary_results_list
        [⟨str "p1", 0, str "A", str "A", true⟩,
          ⟨str "p1", 0, str "A", str "A", true⟩]
        [⟨str "p1", 0, str "B", str "C", false⟩] =
      .ok [⟨str "p1", 0, str "AB", str "AC", false⟩,
        ⟨str "p1", 0, str "AB", str "AC", false⟩] ∧
      ([⟨str "p1", 0, str "AB", str "AC", false⟩,
          ⟨str "p1", 0, str "AB", str "AC", false⟩].filter
        (fun r : BinResult => r.id == str "p1" && r.idx == 0)).length ≠
        1 := by
  decide

/-- C4 (amended): if every item of `results1` has a counterpart in
`results2` under the `(id, idx)` key, the merge succeeds and produces
one merged record per item of `results1`, in order, whose prediction
and correct letter are the call-order concatenations and whose
`is_correct` is their exact string equality (so one record per key
exactly when the keys of `results1` are distinct); if some item of
`results1` has no counterpart, the merge fails with an error carrying
that missing key. -/
theorem merge_binary_results_spec (rs1 rs2 : List BinResult) :
    ((∀ r1 ∈ rs1, (results2_lookup rs2 r1.id r1.idx).isSome) →
      ∃ out, merge_binary_results_list rs1 rs2 = .ok out ∧
        out.length = rs1.length ∧
        ∀ (i : ℕ) (r1 : BinResult), rs1[i]? = some r1 →
          ∃ r2, results2_lookup rs2 r1.id r1.idx = some r2 ∧
            out[i]? = some ⟨r1.id, r1.idx,
              r1.prediction ++ r2.prediction,
              r1.correct_letter ++ r2.correct_letter,
              r1.prediction ++ r2.prediction ==
                r1.correct_letter ++ r2.correct_letter⟩) ∧
      ((∃ r1 ∈ rs1, results2_lookup rs2 r1.id r1.idx = none) →
        ∃ k, merge_binary_results_list rs1 rs2 = .error k) := by
  constructor
  · intro hall
    induction rs1 with
    | nil =>
      exact ⟨[], rfl, rfl, fun i r1 h => by simp at h⟩
    | cons r1 rest ih =>
      have h1 : (results2_lookup rs2 r1.id r1.idx).isSome :=
        hall r1 (List.mem_cons_self r1 rest)
      obtain ⟨r2, hr2⟩ := Option.isSome_iff_exists.mp h1
      obtain ⟨out, hout, hlen, hidx⟩ :=
        ih (fun r hr => hall r (List.mem_cons_of_mem r1 hr))
      refine ⟨⟨r1.id, r1.idx, r1.prediction ++ r2.prediction,
        r1.correct_letter ++ r2.correct_letter,
        r1.prediction ++ r2.prediction ==
          r1.correct_letter ++ r2.correct_letter⟩ :: out, ?_, ?_, ?_⟩
      · rw [merge_binary_results_list, hr2, hout]
        rfl
      · simp [hlen]
      · intro i r h
        match i with
        | 0 =>
          rw [List.getElem?_cons_zero, Option.some.injEq] at h
          subst h
          exact ⟨r2, hr2, by simp⟩
        | i + 1 =>
          rw [List.getElem?_cons_succ] at h
          obtain ⟨r2', hr2', hout'⟩ := hidx i r h
          exact ⟨r2', hr2', by simpa using hout'⟩
  · intro hbad
    induction rs1 with
    | nil => simp at hbad
    | cons r1 rest ih =>
      match hl : results2_lookup rs2 r1.id r1.idx with
      | none =>
        exact ⟨(r1.id, r1.idx), by rw [merge_binary_results_list, hl]⟩
      | some r2 =>
        obtain ⟨r, hr, hrnone⟩ := hbad
        rcases List.mem_cons.mp hr with rfl | hrmem
        · rw [hl] at hrnone
          exact Option.noConfusion hrnone
        · obtain ⟨k, hk⟩ := ih ⟨r, hrmem, hrnone⟩
          refine ⟨k, ?_⟩
          rw [merge_binary_results_list, hl, hk]
          rfl

/-- Witness for the amended C4 at the spec's own example pair. -/
theorem merge_binary_results_spec_witness :
    (∀ r1 ∈ [(⟨str "p1", 0, str "A", str "A", true⟩ : BinResult)],
        (results2_lookup [⟨str "p1", 0, str "B", str "C", false⟩]
          r1.id r1.idx).isSome) ∧
      ∃ out,
        merge_binary_results_list
            [⟨str "p1", 0, str "A", str "A", true⟩]
            [⟨str "p1", 0, str "B", str "C", false⟩] = .ok out ∧
          out.length = 1 ∧
          ∀ (i : ℕ) (r1 : BinResult),
            [(⟨str "p1", 0, str "A", str "A", true⟩ : BinResult)][i]? =
              some r1 →
            ∃ r2, results2_lookup
                [⟨str "p1", 0, str "B", str "C", false⟩] r1.id r1.idx =
                some r2 ∧
              out[i]? = some ⟨r1.id, r1.idx,
                r1.prediction ++ r2.prediction,
                r1.correct_letter ++ r2.correct_letter,
                r1.prediction ++ r2.prediction ==
                  r1.correct_letter ++ r2.correct_letter⟩ :=
  ⟨by decide,
    (merge_binary_results_spec
      [⟨str "p1", 0, str "A", str "A", true⟩]
      [⟨str "p1", 0, str "B", str "C", false⟩]).1 (by decide)⟩

/-- Python `os.path.dirname` (posix): everything up to the last slash,
with trailing slashes stripped unless the head is all slashes. -/
def pyDirname (p : Str) : Str :=
  let head := (p.reverse.dropWhile (fun c => c ≠ '/')).reverse
  if head ≠ [] ∧ head.any (fun c => c ≠ '/') then
    (head.reverse.dropWhile (fun c => c = '/')).reverse
  else head

/-- Source `merge_binary_results` (helpers.py:210-247) at file level:
raise before opening anything when the directories of the two absolute
paths differ; otherwise read both files in order, merge, and write the
result to `merged_results.json` next to the first input.  The first
component of the result is the list of files read, in order; a missing
file is a `FileNotFoundError` raised at its `open`. -/
def merge_binary_results (abspath : Str → Str)
    (readFile : Str → Option (List BinResult)) (f1 f2 : Str) :
    List Str × Except Str (Str × List BinResult) :=
  if pyDirname (abspath f1) ≠ pyDirname (abspath f2) then
    ([], .error (str "Binary files must be in the same directory"))
  else
    match readFile f1 with
    | none => ([f1], .error (str "FileNotFoundError"))
    | some rs1 =>
      match readFile f2 with
      | none => ([f1, f2], .error (str "FileNotFoundError"))
      | some rs2 =>
        match merge_binary_results_list rs1 rs2 with
        | .error k =>
          ([f1, f2],
            .error (str "Missing item in results2 for key: " ++ k.1))
        | .ok out =>
          ([f1, f2],
            .ok (osJoin (pyDirname f1) (str "merged_results.json"), out))

/-- C10: when the absolute parent directories of the two input paths
differ, `merge_binary_results` raises before reading either file (the
read trace is empty); and whenever it succeeds, the merged output is
written to `merged_results.json` in the directory of the first input
path. -/
theorem merge_binary_results_files (abspath : Str → Str)
    (readFile : Str → Option (List BinResult)) (f1 f2 : Str) :
    (pyDirname (abspath f1) ≠ pyDirname (abspath f2) →
      merge_binary_results abspath readFile f1 f2 =
        ([], .error (str "Binary files must be in the same directory"))) ∧
      ∀ reads path out,
        merge_binary_results abspath readFile f1 f2 =
          (reads, .ok (path, out)) →
        path = osJoin (pyDirname f1) (str "merged_results.json") := by
  constructor
  · intro hdir
    rw [merge_binary_results, if_pos hdir]
  · intro reads path out h
    rw [merge_binary_results] at h
    split at h
    · rw [Prod.mk.injEq] at h
      exact absurd h.2 (by simp)
    · split at h
      · rw [Prod.mk.injEq] at h
        exact absurd h.2 (by simp)
      · split at h
        · rw [Prod.mk.injEq] at h
          exact absurd h.2 (by simp)
        · split at h
          · rw [Prod.mk.injEq] at h
            exact absurd h.2 (by simp)
          · rw [Prod.mk.injEq] at h
            have h2 := h.2
            rw [Except.ok.injEq, Prod.mk.injEq] at h2
            exact h2.1.symm

/-- Witness for C10 at two concrete paths in different directories. -/
theorem merge_binary_results_files_witness :
    pyDirname ((fun p : Str => p) (str "/d/a.json")) ≠
        pyDirname ((fun p : Str => p) (str "/e/b.json")) ∧
      merge_binary_results (fun p => p) (fun _ => none)
          (str "/d/a.json") (str "/e/b.json") =
        ([], .error (str "Binary files must be in the same directory")) :=
  ⟨by decide,
    (merge_binary_results_files (fun p => p) (fun _ => none)
      (str "/d/a.json") (str "/e/b.json")).1 (by decide)⟩
